import Mathlib

/-!
VisitorBadgeReloaded: the visit counter store and the HTTP handlers of `server.go`.

`server.go` holds the handlers `getBadge`, `getWebsite`, `getPing` and `getStatus`.
The counter store behind them (`initCache`, `updateCounter`, `cache.Len`) and the helpers
`qryParam`, `getHash` and `generateBadge` live in files that are not part of the sources at
hand.  The store is therefore modelled from the specification, and the helpers are taken
as parameters of the handlers.

A handler is embedded as a `Body`, a program that reaches the store only through call nodes,
and is run by `Body.exec`, which applies each call to the store and records it.  The calls
of a handler are thus the ones its run performs.

Go strings are embedded as Lean strings, Go `int` counts as natural numbers.
-/

namespace VisitorBadge

/-! ## The visit counter store -/

/-- Modelled from the spec: the store behind the `cache` variable, which is declared outside
`server.go`.  A mapping from hash key to count, kept as an association list with one entry
per key, in order of insertion. -/
abbrev Store := List (String × Nat)

/-- Modelled from the spec: `initCache` (called once by `main`, defined outside `server.go`)
creates the store, which starts empty. -/
def initCache : Store := []

/-- The count stored for a key, `none` when the key has no entry. -/
def lookupCount (k : String) : Store → Option Nat
  | [] => none
  | (k', c) :: rest => if k' = k then some c else lookupCount k rest

/-- Overwrite the count of an existing entry; other entries are untouched. -/
def setCount (k : String) (v : Nat) : Store → Store
  | [] => []
  | (k', c) :: rest => if k' = k then (k', v) :: rest else (k', c) :: setCount k v rest

/-- Modelled from the spec: `get_and_increment(key)`, the incrementing mode of the absent
`updateCounter`.  "If key absent, insert with count = 1, return "1".  If present, increment
by 1 and return the new count as a string (decimal, no leading zeros)." -/
def get_and_increment (k : String) (s : Store) : String × Store :=
  match lookupCount k s with
  | none => ("1", s ++ [(k, 1)])
  | some c => (Nat.repr (c + 1), setCount k (c + 1) s)

/-- Modelled from the spec: `peek(key)`, the bypass mode of the absent `updateCounter`.
"If key absent, returns "0" without creating an entry or mutating any existing entry; if
present, returns current count without incrementing." -/
def peek (k : String) (s : Store) : String × Store :=
  match lookupCount k s with
  | none => ("0", s)
  | some c => (Nat.repr c, s)

/-- Modelled from the spec: `size()`, the `cache.Len()` of the absent store: "number of
distinct keys currently tracked". -/
def size (s : Store) : Nat := s.length

/-- Modelled from the spec: `updateCounter(useCache, hash)` is defined outside `server.go`.
Its inputs are "a hash key and a boolean bypass-cache flag"; the count is incremented
"unless the caller requests a cache-bypass (read-only) view". -/
def updateCounter (useCache : Bool) (hash : String) (s : Store) : String × Store :=
  if useCache then peek hash s else get_and_increment hash s

/-- The results of `n` sequential `get_and_increment(k)` calls, in call order, and the store
they leave. -/
def callN (k : String) : Nat → Store → List String × Store
  | 0, s => ([], s)
  | n + 1, s =>
    let r := get_and_increment k s
    let rest := callN k n r.2
    (r.1 :: rest.1, rest.2)

/-- The results of `n` sequential `peek(k)` calls, in call order, and the store they
leave. -/
def peekN (k : String) : Nat → Store → List String × Store
  | 0, s => ([], s)
  | n + 1, s =>
    let r := peek k s
    let rest := peekN k n r.2
    (r.1 :: rest.1, rest.2)

/-- A store operation, as issued by a caller. -/
inductive Op where
  | get_and_increment (k : String)
  | peek (k : String)
  | size
  deriving DecidableEq, Repr

/-- The store after one operation. -/
def Op.apply : Op → Store → Store
  | .get_and_increment k, s => (VisitorBadge.get_and_increment k s).2
  | .peek k, s => (VisitorBadge.peek k s).2
  | .size, s => s

/-- The store after a sequence of operations, first operation first. -/
def run (ops : List Op) (s : Store) : Store :=
  ops.foldl (fun st op => op.apply st) s

/-- The key of an incrementing operation. -/
def Op.incKey : Op → Option String
  | .get_and_increment k => some k
  | _ => none

/-- The keys that have an entry, in order of insertion. -/
def keysOf (s : Store) : List String := s.map Prod.fst

/-- The value a decimal digit string denotes, most significant digit first. -/
def decimalValue (cs : List Char) : Nat :=
  cs.foldl (fun acc c => 10 * acc + (c.toNat - 48)) 0

/-- A canonical decimal numeral for `n`: digits only, not empty, no leading zero (the
numeral "0" apart), and denoting `n`. -/
def IsDecimalOf (str : String) (n : Nat) : Prop :=
  str.data ≠ [] ∧ (∀ c ∈ str.data, c.isDigit = true) ∧
    (n ≠ 0 → str.data.head? ≠ some '0') ∧ decimalValue str.data = n

/-! ## Standard-library functions used by `getBadge` -/

/-- Go `strings.Index` on character lists: the position of the first occurrence of `old`,
`none` when there is none. -/
def stringsIndex (old : List Char) : List Char → Option Nat
  | [] => if old = [] then some 0 else none
  | c :: cs =>
    if old.isPrefixOf (c :: cs) then some 0 else (stringsIndex old cs).map (· + 1)

/-- The replacement loop of Go `strings.Replace` for a non-empty `old`: replace the first
`n` non-overlapping occurrences of `old`, scanning left to right. -/
def replaceLoop (old new : List Char) : Nat → List Char → List Char
  | 0, s => s
  | n + 1, s =>
    match stringsIndex old s with
    | none => s
    | some j => s.take j ++ new ++ replaceLoop old new n (s.drop (j + old.length))

/-- The replacement loop of Go `strings.Replace` for the empty `old`: `new` is inserted at
the start and after each character, at most `n` times. -/
def replaceEmpty (new : List Char) : Nat → List Char → List Char
  | 0, s => s
  | n + 1, s =>
    new ++ (match s with
      | [] => []
      | c :: cs => c :: replaceEmpty new n cs)

/-- Go `strings.Replace(s, old, new, n)`: a copy of `s` with the first `n` non-overlapping
occurrences of `old` replaced by `new`; a negative `n` puts no limit on the number of
replacements. -/
def stringsReplace (s old new : String) (n : Int) : String :=
  if old = new ∨ n = 0 then s
  else
    let m : Nat := if n < 0 then s.length + 1 else n.toNat
    if old.data = [] then ⟨replaceEmpty new.data m s.data⟩
    else ⟨replaceLoop old.data new.data m s.data⟩

/-! ## The handlers of `server.go` -/

/-- Default badge colour. -/
def colour : String := "blue"
/-- Default colour of the left half of the badge. -/
def leftColour : String := "grey"
/-- Default badge style. -/
def style : String := "flat"
/-- Default badge label. -/
def text : String := "Visitors"
/-- Default logo. -/
def logo : String := ""
/-- Default logo colour. -/
def logoColour : String := "white"
/-- Default badge service. -/
def DEFAULT_SHIELDS : String := "https://img.shields.io"

/-- An inbound request: the parameters of its URL query, in order. -/
structure Request where
  query : List (String × String)
  deriving DecidableEq, Repr

/-- The options `getBadge` hands to `generateBadge`; the fields are those of the struct
literal in `getBadge`. -/
structure BadgeOptions where
  Label : String
  Text : String
  Colour : String
  LabelColour : String
  Style : String
  Logo : String
  LogoColour : String
  deriving DecidableEq, Repr

/-- The report of `getStatus`. -/
structure StatusResponse where
  CachedHashes : Nat
  ProcessedRequests : Int
  Uptime : Int
  CodeRepository : String
  deriving DecidableEq, Repr

/-- A call a handler makes on the store. -/
inductive StoreCall where
  | updateCounter (useCache : Bool) (hash : String)
  | cacheLen
  deriving DecidableEq, Repr

/-- What a handler sends back. -/
inductive Reply where
  /-- The handler returned without writing anything. -/
  | nothing
  /-- The badge: the options given to `generateBadge`, the headers set (in the order they
  are set) and the body written. -/
  | badge (opts : BadgeOptions) (headers : List (String × String)) (body : String)
  /-- A call of `http.Redirect`. -/
  | redirect (url : String) (code : Nat)
  /-- A plain body. -/
  | text (body : String)
  /-- The JSON encoding of a status report. -/
  | status (res : StatusResponse)
  deriving DecidableEq, Repr

/-- The effect of a handler on one request: the store it leaves, the calls it made on the
store (in order) and its reply. -/
structure Outcome (σ : Type) where
  store : σ
  calls : List StoreCall
  reply : Reply

/-- What the handlers use, the store apart, and `server.go` does not define: the helpers
`qryParam`, `getHash` and `generateBadge` of the other files, `url.QueryUnescape` (its result
and its error), the process variables read by the handlers, and the clock (the two readings
of `time.Now` in `getBadge`, in seconds, with the `http.TimeFormat` rendering). -/
structure Helpers where
  qryParam : String → Request → String → String
  getHash : String → String
  generateBadge : String → BadgeOptions → String
  QueryUnescape : String → String × Option String
  SHIELDS_URL : String
  processedBadges : Int
  uptime : Int
  now₁ : Int
  now₂ : Int
  formatTime : Int → String

/-- The helpers together with the two store functions the handlers call, `updateCounter` and
`cache.Len`, which `server.go` does not define either. -/
structure Deps (σ : Type) extends Helpers where
  updateCounter : Bool → String → σ → String × σ
  cacheLen : σ → Nat

/-- The body of a handler, as a program over the store.  A body has no store of its own: it
reaches the store only through a call node, `updateCounter(useCache, hash)` or `cache.Len()`,
and goes on with what the call returns, until it replies. -/
inductive Body where
  | reply (out : Reply)
  | updateCounter (useCache : Bool) (hash : String) (next : String → Body)
  | cacheLen (next : Nat → Body)

/-- Run a body on a store: every call node is applied to the current store with the store
function of `d` and recorded, in order. -/
def Body.exec {σ : Type} (d : Deps σ) : Body → σ → Outcome σ
  | .reply out, s => { store := s, calls := [], reply := out }
  | .updateCounter useCache hash next, s =>
    let res := d.updateCounter useCache hash s
    let rest := (next res.1).exec d res.2
    { rest with calls := .updateCounter useCache hash :: rest.calls }
  | .cacheLen next, s =>
    let rest := (next (d.cacheLen s)).exec d s
    { rest with calls := .cacheLen :: rest.calls }

/-- The effect of one recorded call on the store. -/
def StoreCall.applyTo {σ : Type} (d : Deps σ) : StoreCall → σ → σ
  | .updateCounter useCache hash, s => (d.updateCounter useCache hash s).2
  | .cacheLen, s => s

/-- The effect of a list of recorded calls on the store, first call first. -/
def replayCalls {σ : Type} (d : Deps σ) (calls : List StoreCall) (s : σ) : σ :=
  calls.foldl (fun st c => c.applyTo d st) s

/-- The body of the handler `getBadge` of `server.go`. -/
def getBadgeBody (h : Helpers) (r : Request) : Body :=
  let page := h.qryParam "page_id" r ""
  if page = "" then
    .reply .nothing
  else
    let hash := h.getHash page
    let colour := h.qryParam "color" r colour
    let labelColour := h.qryParam "lcolor" r leftColour
    let style := h.qryParam "style" r style
    let label := h.qryParam "text" r text
    let logo := h.qryParam "logo" r logo
    let logoColour := h.qryParam "logoColor" r logoColour
    let useCache : Bool := decide ((h.qryParam "cache" r "").length > 0)
    .updateCounter useCache hash fun res =>
      let custom := h.qryParam "custom" r ""
      let cnt :=
        if custom.length > 0 then stringsReplace (h.QueryUnescape custom).1 "CNT" res 1
        else res
      let opts : BadgeOptions :=
        { Label := label, Text := cnt, Colour := colour, LabelColour := labelColour,
          Style := style, Logo := logo, LogoColour := logoColour }
      let badge := h.generateBadge h.SHIELDS_URL opts
      let date := h.formatTime (h.now₁ - 600)
      let nonUnique : Bool := decide ((h.qryParam "non-unique" r "").length > 0)
      let expiry := if nonUnique then date else h.formatTime (h.now₂ + 600)
      let headers :=
        (if nonUnique then [("Cache-Control", "no-cache,max-age=0")] else []) ++
          [("Content-Type", "image/svg+xml"), ("Date", date), ("Expires", expiry)]
      .reply (.badge opts headers badge)

/-- The body of the handler `getWebsite` of `server.go`. -/
def getWebsiteBody (_h : Helpers) (_r : Request) : Body :=
  .reply (.redirect "https://github.com/Nathan13888/VisitorBadgeReloaded" 307)

/-- The body of the handler `getPing` of `server.go`. -/
def getPingBody (_h : Helpers) (_r : Request) : Body :=
  .reply (.text "PONG!!!")

/-- The body of the handler `getStatus` of `server.go`. -/
def getStatusBody (h : Helpers) (_r : Request) : Body :=
  .cacheLen fun len =>
    .reply (.status
      { CachedHashes := len
        ProcessedRequests := h.processedBadges
        Uptime := h.uptime
        CodeRepository := "https://github.com/Nathan13888/VisitorBadgeReloaded" })

/-- The handler `getBadge` of `server.go`, run on a store. -/
def getBadge {σ : Type} (d : Deps σ) (r : Request) (s : σ) : Outcome σ :=
  (getBadgeBody d.toHelpers r).exec d s

/-- The handler `getWebsite` of `server.go`, run on a store. -/
def getWebsite {σ : Type} (d : Deps σ) (r : Request) (s : σ) : Outcome σ :=
  (getWebsiteBody d.toHelpers r).exec d s

/-- The handler `getPing` of `server.go`, run on a store. -/
def getPing {σ : Type} (d : Deps σ) (r : Request) (s : σ) : Outcome σ :=
  (getPingBody d.toHelpers r).exec d s

/-- The handler `getStatus` of `server.go`, run on a store. -/
def getStatus {σ : Type} (d : Deps σ) (r : Request) (s : σ) : Outcome σ :=
  (getStatusBody d.toHelpers r).exec d s

/-- The four handlers registered by `main`. -/
inductive Handler where
  | getWebsite
  | getPing
  | getStatus
  | getBadge
  deriving DecidableEq, Repr

/-- Run a handler on a request. -/
def Handler.serve {σ : Type} (h : Handler) (d : Deps σ) (r : Request) (s : σ) : Outcome σ :=
  match h with
  | .getWebsite => VisitorBadge.getWebsite d r s
  | .getPing => VisitorBadge.getPing d r s
  | .getStatus => VisitorBadge.getStatus d r s
  | .getBadge => VisitorBadge.getBadge d r s

/-- The environment `d` with the modelled store in the place of its store functions. -/
def withStore (d : Deps Store) : Deps Store :=
  { d with updateCounter := updateCounter, cacheLen := size }

/-- The count string the store returns to `getBadge` for a request: the first component of
its `updateCounter(useCache, hash)` call. -/
def counterResult {σ : Type} (d : Deps σ) (r : Request) (s : σ) : String :=
  (d.updateCounter (decide ((d.qryParam "cache" r "").length > 0))
    (d.getHash (d.qryParam "page_id" r "")) s).1

/-- An instance of the absent helper `qryParam(name, r, default)`: the first value of the
query parameter `name`, and `default` when the parameter is missing or empty. -/
def sampleQryParam (name : String) (r : Request) (dflt : String) : String :=
  match r.query.find? (fun kv => kv.1 = name) with
  | none => dflt
  | some kv => if kv.2 = "" then dflt else kv.2

/-- An environment over the modelled store.  The hash is the identity, the badge body is the
badge text, and `QueryUnescape` is the identity without error, which is what the Go function
does on a string that has neither a percent nor a plus sign. -/
def sampleDeps : Deps Store where
  qryParam := sampleQryParam
  getHash := fun page => page
  updateCounter := updateCounter
  cacheLen := size
  generateBadge := fun _ opts => opts.Text
  QueryUnescape := fun str => (str, none)
  SHIELDS_URL := DEFAULT_SHIELDS
  processedBadges := 0
  uptime := 0
  now₁ := 1000
  now₂ := 1000
  formatTime := fun t => toString t

/-- The request `/badge?page_id=p&non-unique=1`. -/
def nonUniqueRequest : Request := ⟨[("page_id", "p"), ("non-unique", "1")]⟩

/-- The request `/badge?color=red`, which has no `page_id`. -/
def noPageRequest : Request := ⟨[("color", "red")]⟩

/-- The request `/badge?page_id=p&cache=1&non-unique=1`. -/
def cachedRequest : Request := ⟨[("page_id", "p"), ("cache", "1"), ("non-unique", "1")]⟩

/-- The request `/badge?page_id=p&cache=yes&color=red&style=plastic&custom=CNT+views`. -/
def styledRequest : Request :=
  ⟨[("page_id", "p"), ("cache", "yes"), ("color", "red"), ("style", "plastic"),
    ("custom", "CNT views")]⟩

theorem digitChar_facts : ∀ d, d < 10 →
    (Nat.digitChar d).isDigit = true ∧ (Nat.digitChar d).toNat - 48 = d ∧
      (d ≠ 0 → Nat.digitChar d ≠ '0') := by
  decide

theorem decimalValue_snoc (l : List Char) (c : Char) :
    decimalValue (l ++ [c]) = 10 * decimalValue l + (c.toNat - 48) := by
  simp [decimalValue, List.foldl_append]

theorem toDigitsCore_decimal (fuel : Nat) : ∀ (n : Nat) (ds : List Char), n < fuel →
    ∃ l, Nat.toDigitsCore 10 fuel n ds = l ++ ds ∧ l ≠ [] ∧ (∀ c ∈ l, c.isDigit = true) ∧
      (n ≠ 0 → l.head? ≠ some '0') ∧ decimalValue l = n := by
  induction fuel with
  | zero => intro n ds h; omega
  | succ fuel ih =>
    intro n ds h
    have hd := digitChar_facts (n % 10) (Nat.mod_lt _ (by decide))
    by_cases h0 : n / 10 = 0
    · have hlt : n < 10 := by omega
      have hmod : n % 10 = n := Nat.mod_eq_of_lt hlt
      refine ⟨[Nat.digitChar (n % 10)], ?_, by simp, ?_, ?_, ?_⟩
      · simp [Nat.toDigitsCore, h0]
      · intro c hc
        simp at hc
        rw [hc]; exact hd.1
      · intro hn
        simp only [List.head?_cons, ne_eq, Option.some.injEq]
        exact hd.2.2 (by omega)
      · have h3 := hd.2.1
        simp only [decimalValue, List.foldl_cons, List.foldl_nil, h3]
        omega
    · obtain ⟨l, hl, hne, hdig, hhead, hval⟩ :=
        ih (n / 10) (Nat.digitChar (n % 10) :: ds) (by omega)
      refine ⟨l ++ [Nat.digitChar (n % 10)], ?_, by simp, ?_, ?_, ?_⟩
      · simp [Nat.toDigitsCore, h0, hl]
      · intro c hc
        rcases List.mem_append.mp hc with hc | hc
        · exact hdig c hc
        · simp at hc
          rw [hc]; exact hd.1
      · intro _
        have := hhead h0
        cases l with
        | nil => exact absurd rfl hne
        | cons a t => simpa using this
      · rw [decimalValue_snoc, hval, hd.2.1]; omega

theorem repr_isDecimalOf (n : Nat) : IsDecimalOf (Nat.repr n) n := by
  obtain ⟨l, hl, hne, hdig, hhead, hval⟩ := toDigitsCore_decimal (n + 1) n [] (by omega)
  have hdata : (Nat.repr n).data = l := by
    simp [Nat.repr, Nat.toDigits, List.asString, hl]
  unfold IsDecimalOf
  rw [hdata]
  exact ⟨hne, hdig, hhead, hval⟩

/-! ## The store: lookups after an update -/

theorem lookupCount_append_of_some (k : String) (c : Nat) (s t : Store)
    (h : lookupCount k s = some c) : lookupCount k (s ++ t) = some c := by
  induction s with
  | nil => simp [lookupCount] at h
  | cons e rest ih =>
    obtain ⟨k', c'⟩ := e
    simp only [lookupCount, List.cons_append] at h ⊢
    split
    · rename_i hk; simpa [hk] using h
    · rename_i hk; simp only [hk, if_false] at h; exact ih h

theorem lookupCount_append_of_none (k : String) (s t : Store)
    (h : lookupCount k s = none) : lookupCount k (s ++ t) = lookupCount k t := by
  induction s with
  | nil => rfl
  | cons e rest ih =>
    obtain ⟨k', c'⟩ := e
    simp only [lookupCount, List.cons_append] at h ⊢
    split
    · rename_i hk; simp [hk] at h
    · rename_i hk; simp only [hk, if_false] at h; exact ih h

theorem lookupCount_setCount_same (k : String) (v c : Nat) (s : Store)
    (h : lookupCount k s = some c) : lookupCount k (setCount k v s) = some v := by
  induction s with
  | nil => simp [lookupCount] at h
  | cons e rest ih =>
    obtain ⟨k', c'⟩ := e
    by_cases hk : k' = k
    · simp [setCount, lookupCount, hk]
    · simp only [lookupCount, hk, if_false] at h
      simp [setCount, lookupCount, hk, ih h]

theorem lookupCount_setCount_other (j k : String) (v : Nat) (s : Store) (hjk : j ≠ k) :
    lookupCount k (setCount j v s) = lookupCount k s := by
  induction s with
  | nil => rfl
  | cons e rest ih =>
    obtain ⟨k', c'⟩ := e
    by_cases hj : k' = j
    · have hk : ¬ k' = k := fun h => hjk (hj ▸ h)
      simp [setCount, lookupCount, hj, hjk]
    · by_cases hk : k' = k
      · subst hk
        simp [setCount, lookupCount, hj]
      · simp [setCount, lookupCount, hj, hk, ih]

theorem keysOf_setCount (k : String) (v : Nat) (s : Store) :
    keysOf (setCount k v s) = keysOf s := by
  induction s with
  | nil => rfl
  | cons e rest ih =>
    obtain ⟨k', c'⟩ := e
    by_cases hk : k' = k
    · simp [setCount, keysOf, hk]
    · simp only [keysOf] at ih
      simp [setCount, keysOf, hk, ih]

theorem lookupCount_eq_none_iff (k : String) (s : Store) :
    lookupCount k s = none ↔ k ∉ keysOf s := by
  induction s with
  | nil => simp [lookupCount, keysOf]
  | cons e rest ih =>
    obtain ⟨k', c'⟩ := e
    simp only [keysOf] at ih
    by_cases hk : k' = k
    · simp [lookupCount, keysOf, hk]
    · have hk' : ¬ k = k' := fun h => hk h.symm
      simp [lookupCount, keysOf, hk, hk', ih]

theorem size_eq_length_keysOf (s : Store) : size s = (keysOf s).length := by
  simp [size, keysOf]

theorem keysOf_get_and_increment (k : String) (s : Store) :
    keysOf (get_and_increment k s).2 = if k ∈ keysOf s then keysOf s else keysOf s ++ [k] := by
  unfold get_and_increment
  cases h : lookupCount k s with
  | none =>
    have := (lookupCount_eq_none_iff k s).mp h
    simp only [this, if_false]
    simp [keysOf]
  | some c =>
    have : k ∈ keysOf s := by
      by_contra hc
      rw [(lookupCount_eq_none_iff k s).mpr hc] at h
      cases h
    simp [this, keysOf_setCount]

theorem peek_store (k : String) (s : Store) : (peek k s).2 = s := by
  unfold peek
  cases lookupCount k s <;> rfl

/-- One operation never lowers a count and never drops a key. -/
theorem apply_lookupCount_mono (op : Op) (s : Store) (k : String) (c : Nat)
    (h : lookupCount k s = some c) :
    ∃ c', lookupCount k (op.apply s) = some c' ∧ c ≤ c' := by
  cases op with
  | size => exact ⟨c, h, le_refl c⟩
  | peek j => exact ⟨c, by simp only [Op.apply, peek_store]; exact h, le_refl c⟩
  | get_and_increment j =>
    simp only [Op.apply, get_and_increment]
    cases hj : lookupCount j s with
    | none => exact ⟨c, lookupCount_append_of_some k c s _ h, le_refl c⟩
    | some cj =>
      by_cases hjk : j = k
      · subst hjk
        rw [h] at hj
        cases hj
        exact ⟨c + 1, lookupCount_setCount_same j _ c s h, Nat.le_succ c⟩
      · exact ⟨c, by simp only [lookupCount_setCount_other j k _ s hjk]; exact h, le_refl c⟩

theorem run_append (ops₁ ops₂ : List Op) (s : Store) :
    run (ops₁ ++ ops₂) s = run ops₂ (run ops₁ s) := by
  simp [run, List.foldl_append]

theorem run_lookupCount_mono (ops : List Op) : ∀ (s : Store) (k : String) (c : Nat),
    lookupCount k s = some c → ∃ c', lookupCount k (run ops s) = some c' ∧ c ≤ c' := by
  induction ops with
  | nil => intro s k c h; exact ⟨c, h, le_refl c⟩
  | cons op rest ih =>
    intro s k c h
    obtain ⟨c₁, h₁, hle₁⟩ := apply_lookupCount_mono op s k c h
    obtain ⟨c₂, h₂, hle₂⟩ := ih (op.apply s) k c₁ h₁
    exact ⟨c₂, h₂, le_trans hle₁ hle₂⟩

theorem apply_size_le (op : Op) (s : Store) : size s ≤ size (op.apply s) := by
  rw [size_eq_length_keysOf, size_eq_length_keysOf]
  cases op with
  | size => exact le_refl _
  | peek j => simp [Op.apply, peek_store]
  | get_and_increment j =>
    simp only [Op.apply, keysOf_get_and_increment]
    split <;> simp

theorem run_keys (ops : List Op) : ∀ (s : Store), (keysOf s).Nodup →
    (keysOf (run ops s)).Nodup ∧
      (keysOf (run ops s)).toFinset = (keysOf s).toFinset ∪ (ops.filterMap Op.incKey).toFinset := by
  induction ops with
  | nil => intro s hs; simp [run, hs]
  | cons op rest ih =>
    intro s hs
    have hstep : (keysOf (op.apply s)).Nodup ∧
        (keysOf (op.apply s)).toFinset
          = (keysOf s).toFinset ∪ ([op].filterMap Op.incKey).toFinset := by
      cases op with
      | size => simp [Op.apply, Op.incKey, hs]
      | peek j => simp [Op.apply, Op.incKey, peek_store, hs]
      | get_and_increment j =>
        simp only [Op.apply, keysOf_get_and_increment]
        by_cases hj : j ∈ keysOf s
        · simp only [hj, if_true]
          refine ⟨hs, ?_⟩
          ext x
          simp [Op.incKey]
          intro hx; rw [hx]; exact hj
        · simp only [hj, if_false]
          refine ⟨?_, ?_⟩
          · rw [List.nodup_append]
            refine ⟨hs, by simp, ?_⟩
            intro a ha hb
            simp at hb
            exact hj (hb ▸ ha)
          · ext x
            simp [Op.incKey]
    obtain ⟨h1, h2⟩ := ih (op.apply s) hstep.1
    have hrun : run (op :: rest) s = run rest (op.apply s) := rfl
    rw [hrun]
    refine ⟨h1, ?_⟩
    rw [h2, hstep.2]
    ext x
    simp [List.filterMap_cons]
    cases hop : op.incKey <;> simp [or_assoc]

theorem size_run_initCache (ops : List Op) :
    size (run ops initCache) = ((ops.filterMap Op.incKey).dedup).length := by
  obtain ⟨h1, h2⟩ := run_keys ops initCache (by simp [initCache, keysOf])
  rw [size_eq_length_keysOf, ← List.toFinset_card_of_nodup h1, h2, ← List.card_toFinset]
  simp [initCache, keysOf]

theorem callN_of_some (k : String) (n : Nat) : ∀ (s : Store) (c : Nat),
    lookupCount k s = some c →
    (callN k n s).1 = (List.range n).map (fun i => Nat.repr (c + i + 1)) ∧
      lookupCount k (callN k n s).2 = some (c + n) := by
  induction n with
  | zero => intro s c h; exact ⟨rfl, h⟩
  | succ n ih =>
    intro s c h
    have hstep : get_and_increment k s = (Nat.repr (c + 1), setCount k (c + 1) s) := by
      simp [get_and_increment, h]
    obtain ⟨h1, h2⟩ := ih (setCount k (c + 1) s) (c + 1)
      (lookupCount_setCount_same k (c + 1) c s h)
    simp only [callN, hstep]
    refine ⟨?_, ?_⟩
    · rw [h1, List.range_succ_eq_map]
      simp only [List.map_cons, List.map_map, Nat.add_zero]
      congr 1
      apply List.map_congr_left
      intro i _
      simp only [Function.comp, Nat.succ_eq_add_one]
      congr 1
      omega
    · rw [h2]; congr 1; omega

theorem callN_of_none (k : String) (n : Nat) (s : Store) (h : lookupCount k s = none) :
    (callN k n s).1 = (List.range n).map (fun i => Nat.repr (i + 1)) ∧
      (1 ≤ n → lookupCount k (callN k n s).2 = some n) := by
  cases n with
  | zero => exact ⟨rfl, fun h0 => absurd h0 (by decide)⟩
  | succ n =>
    have hstep : get_and_increment k s = ("1", s ++ [(k, 1)]) := by
      simp [get_and_increment, h]
    have hl : lookupCount k (s ++ [(k, 1)]) = some 1 := by
      rw [lookupCount_append_of_none k s _ h]; simp [lookupCount]
    obtain ⟨h1, h2⟩ := callN_of_some k n (s ++ [(k, 1)]) 1 hl
    simp only [callN, hstep]
    refine ⟨?_, fun _ => ?_⟩
    · rw [h1, List.range_succ_eq_map]
      simp only [List.map_cons, List.map_map, Nat.zero_add]
      refine congrArg₂ _ rfl ?_
      apply List.map_congr_left
      intro i _
      simp only [Function.comp, Nat.succ_eq_add_one]
      congr 1
      omega
    · rw [h2]; congr 1; omega

theorem peekN_eq (k : String) (n : Nat) (s : Store) :
    peekN k n s = (List.replicate n (peek k s).1, s) := by
  induction n with
  | zero => rfl
  | succ n ih => simp only [peekN, peek_store, ih, List.replicate_succ]

/-! ## The store contract -/

/-- C1: on a store that has never seen `k`, `n ≥ 1` sequential `get_and_increment(k)` calls
return "1", "2", ..., "n" in that order.  The first call inserts `k` with count 1 and returns
"1"; each later call raises the stored count by exactly 1 and returns the new count; every
result is the canonical decimal numeral (digits only, no leading zero) of its count. -/
theorem get_and_increment_sequence (k : String) (s : Store) (n : Nat)
    (hk : lookupCount k s = none) (hn : 1 ≤ n) :
    (callN k n s).1 = (List.range n).map (fun i => Nat.repr (i + 1)) ∧
    lookupCount k (callN k n s).2 = some n ∧
    updateCounter false k s = get_and_increment k s ∧
    get_and_increment k s = ("1", s ++ [(k, 1)]) ∧
    lookupCount k (get_and_increment k s).2 = some 1 ∧
    (∀ m, 1 ≤ m → m < n →
      lookupCount k (callN k m s).2 = some m ∧
      (get_and_increment k (callN k m s).2).1 = Nat.repr (m + 1) ∧
      lookupCount k (get_and_increment k (callN k m s).2).2 = some (m + 1)) ∧
    (∀ i, i < n → IsDecimalOf (Nat.repr (i + 1)) (i + 1)) := by
  have hfirst : get_and_increment k s = ("1", s ++ [(k, 1)]) := by
    simp [get_and_increment, hk]
  have hl : lookupCount k (s ++ [(k, 1)]) = some 1 := by
    rw [lookupCount_append_of_none k s _ hk]; simp [lookupCount]
  refine ⟨(callN_of_none k n s hk).1, (callN_of_none k n s hk).2 hn, rfl, hfirst, ?_, ?_, ?_⟩
  · rw [hfirst]; exact hl
  · intro m hm _
    have hm' := (callN_of_none k m s hk).2 hm
    refine ⟨hm', ?_, ?_⟩
    · simp [get_and_increment, hm']
    · simp only [get_and_increment, hm']
      exact lookupCount_setCount_same k (m + 1) m _ hm'
  · intro i _
    exact repr_isDecimalOf (i + 1)

/-- C1 at the key "k", three calls, on a store that holds another key. -/
theorem get_and_increment_sequence_witness :
    lookupCount "k" [("a", 5)] = none ∧ 1 ≤ 3 ∧
      (callN "k" 3 [("a", 5)]).1 = ["1", "2", "3"] ∧
      (callN "k" 3 [("a", 5)]).2 = [("a", 5), ("k", 3)] :=
  ⟨by decide, by decide,
    (get_and_increment_sequence "k" [("a", 5)] 3 (by decide) (by decide)).1.trans (by decide),
    by decide⟩

/-- C2: `peek(k)`, the bypass mode of the store operation, leaves the store as it found it:
no entry is created, no count changes and `size()` is the same.  It returns "0" for an absent
key and the current count for a present one, and any number of consecutive `peek(k)` calls
return that same value. -/
theorem peek_leaves_store_unchanged (k : String) (s : Store) (n : Nat) :
    updateCounter true k s = peek k s ∧
    (peek k s).2 = s ∧
    (∀ j, lookupCount j (peek k s).2 = lookupCount j s) ∧
    size (peek k s).2 = size s ∧
    (peek k s).1 = (match lookupCount k s with
      | none => "0"
      | some c => Nat.repr c) ∧
    (peekN k n s).1 = List.replicate n (peek k s).1 ∧
    (peekN k n s).2 = s := by
  refine ⟨rfl, peek_store k s, ?_, ?_, ?_, ?_, ?_⟩
  · intro j; rw [peek_store]
  · rw [peek_store]
  · unfold peek
    cases lookupCount k s <;> rfl
  · rw [peekN_eq]
  · rw [peekN_eq]

/-- C4: in every state reachable from the empty store of `initCache`, no operation
(`get_and_increment`, `peek` or `size`, on any key) lowers the count of any key or removes
a key, neither does any further sequence of operations, and no operation shrinks the store;
a reachable store is empty exactly when no `get_and_increment` has been performed since
`initCache`. -/
theorem counts_never_decrease (ops : List Op) (op : Op) (k : String) :
    (∀ c, lookupCount k (run ops initCache) = some c →
      ∃ c', lookupCount k (op.apply (run ops initCache)) = some c' ∧ c ≤ c') ∧
    (∀ (later : List Op) (c : Nat), lookupCount k (run ops initCache) = some c →
      ∃ c', lookupCount k (run (ops ++ later) initCache) = some c' ∧ c ≤ c') ∧
    size (run ops initCache) ≤ size (op.apply (run ops initCache)) ∧
    size initCache = 0 ∧
    (size (run ops initCache) = 0 ↔ ∀ o ∈ ops, o.incKey = none) := by
  refine ⟨fun c h => apply_lookupCount_mono op _ k c h, ?_, apply_size_le op _, rfl, ?_⟩
  · intro later c h
    rw [run_append]
    exact run_lookupCount_mono later _ k c h
  · rw [size_run_initCache, List.length_eq_zero, List.dedup_eq_nil,
      List.filterMap_eq_nil_iff]

/-- C4 at the store reached by one `get_and_increment("a")` and one `peek("b")`. -/
theorem counts_never_decrease_witness :
    lookupCount "a" (run [.get_and_increment "a", .peek "b"] initCache) = some 1 ∧
      ∃ c', lookupCount "a"
          ((Op.get_and_increment "a").apply
            (run [.get_and_increment "a", .peek "b"] initCache)) = some c' ∧ 1 ≤ c' :=
  ⟨by decide,
    (counts_never_decrease [.get_and_increment "a", .peek "b"] (.get_and_increment "a") "a").1
      1 (by decide)⟩

/-- C5: after any sequence of operations on the empty store, `size()` is the number of
distinct keys passed to `get_and_increment` in the sequence, a key has an entry exactly when
it was passed to `get_and_increment` (so a key that was only peeked is not counted), and
`getStatus` reports that number as `CachedHashes`. -/
theorem size_counts_incremented_keys (ops : List Op) (d : Deps Store) (r : Request) :
    size (run ops initCache) = ((ops.filterMap Op.incKey).dedup).length ∧
    (∀ k, k ∈ keysOf (run ops initCache) ↔ Op.get_and_increment k ∈ ops) ∧
    (getStatus (withStore d) r (run ops initCache)).reply =
      .status
        { CachedHashes := ((ops.filterMap Op.incKey).dedup).length
          ProcessedRequests := d.processedBadges
          Uptime := d.uptime
          CodeRepository := "https://github.com/Nathan13888/VisitorBadgeReloaded" } := by
  refine ⟨size_run_initCache ops, ?_, ?_⟩
  · intro k
    obtain ⟨_, h2⟩ := run_keys ops initCache (by simp [initCache, keysOf])
    have := congrArg (fun f => k ∈ f) h2
    simp only [List.mem_toFinset, Finset.mem_union, eq_iff_iff] at this
    rw [this]
    simp only [initCache, keysOf, List.map_nil, List.not_mem_nil, false_or,
      List.mem_filterMap]
    constructor
    · rintro ⟨o, ho, hk⟩
      cases o <;> simp [Op.incKey] at hk
      subst hk; exact ho
    · intro h
      exact ⟨_, h, rfl⟩
  · simp only [getStatus, getStatusBody, Body.exec, withStore]
    rw [size_run_initCache]

/-! ## `strings.Replace` with a limit of one -/

theorem length_pos_iff_ne_empty (str : String) : str.length > 0 ↔ str ≠ "" := by
  rw [String.length, gt_iff_lt, List.length_pos, ne_eq, ne_eq, String.ext_iff]

theorem getBadge_calls {σ : Type} (d : Deps σ) (r : Request) (s : σ) :
    (getBadge d r s).calls =
      if d.qryParam "page_id" r "" = "" then []
      else [.updateCounter (decide ((d.qryParam "cache" r "").length > 0))
        (d.getHash (d.qryParam "page_id" r ""))] := by
  by_cases h : d.qryParam "page_id" r "" = ""
  · rw [if_pos h]
    simp only [getBadge, getBadgeBody, h, if_true, Body.exec]
  · rw [if_neg h]
    simp only [getBadge, getBadgeBody, h, if_false, Body.exec]

theorem getBadge_store {σ : Type} (d : Deps σ) (r : Request) (s : σ) :
    (getBadge d r s).store =
      if d.qryParam "page_id" r "" = "" then s
      else (d.updateCounter (decide ((d.qryParam "cache" r "").length > 0))
        (d.getHash (d.qryParam "page_id" r "")) s).2 := by
  by_cases h : d.qryParam "page_id" r "" = ""
  · rw [if_pos h]
    simp only [getBadge, getBadgeBody, h, if_true, Body.exec]
  · rw [if_neg h]
    simp only [getBadge, getBadgeBody, h, if_false, Body.exec]

/-- C6 as stated fails: the request `/badge?page_id=p&non-unique=1` has a non-empty
`page_id` and a non-empty `non-unique`, and `getBadge` issues `updateCounter(false, hash)`,
the incrementing operation: the count of `p` goes from absent to 1, and from 4 to 5. -/
theorem non_unique_request_increments :
    sampleDeps.qryParam "page_id" nonUniqueRequest "" ≠ "" ∧
    sampleDeps.qryParam "non-unique" nonUniqueRequest "" ≠ "" ∧
    (getBadge sampleDeps nonUniqueRequest initCache).calls = [.updateCounter false "p"] ∧
    (getBadge sampleDeps nonUniqueRequest initCache).store = [("p", 1)] ∧
    (getBadge sampleDeps nonUniqueRequest [("p", 4)]).store = [("p", 5)] := by
  decide

/-- C6, amended: for every badge request with a non-empty `page_id` whose `cache` parameter
is non-empty, the one store operation `getBadge` issues is the bypass one,
`updateCounter(true, hash)`, whatever the other parameters (`non-unique` included) are; on
the modelled store it leaves the store as it was. -/
theorem cache_param_selects_bypass (d : Deps Store) (r : Request) (s : Store)
    (hpage : d.qryParam "page_id" r "" ≠ "") (hcache : d.qryParam "cache" r "" ≠ "") :
    (getBadge d r s).calls = [.updateCounter true (d.getHash (d.qryParam "page_id" r ""))] ∧
    (getBadge d r s).store
      = (d.updateCounter true (d.getHash (d.qryParam "page_id" r "")) s).2 ∧
    (getBadge (withStore d) r s).store = s ∧
    counterResult (withStore d) r s = (peek (d.getHash (d.qryParam "page_id" r "")) s).1 := by
  have hlen : decide ((d.qryParam "cache" r "").length > 0) = true :=
    decide_eq_true ((length_pos_iff_ne_empty _).mpr hcache)
  have hpage' : (withStore d).qryParam "page_id" r "" ≠ "" := hpage
  have hlen' : decide (((withStore d).qryParam "cache" r "").length > 0) = true := hlen
  refine ⟨?_, ?_, ?_, ?_⟩
  · rw [getBadge_calls, if_neg hpage, hlen]
  · rw [getBadge_store, if_neg hpage, hlen]
  · rw [getBadge_store, if_neg hpage', hlen']
    exact peek_store _ s
  · unfold counterResult
    rw [hlen']
    rfl

/-- C6, amended, at the request `/badge?page_id=p&cache=1&non-unique=1` on a store that
holds 4 for `p`. -/
theorem cache_param_selects_bypass_witness :
    sampleDeps.qryParam "page_id" cachedRequest "" ≠ "" ∧
    sampleDeps.qryParam "cache" cachedRequest "" ≠ "" ∧
    (getBadge sampleDeps cachedRequest [("p", 4)]).calls = [.updateCounter true "p"] ∧
    (getBadge (withStore sampleDeps) cachedRequest [("p", 4)]).store = [("p", 4)] :=
  ⟨by decide, by decide,
    (cache_param_selects_bypass sampleDeps cachedRequest [("p", 4)]
      (by decide) (by decide)).1,
    (cache_param_selects_bypass sampleDeps cachedRequest [("p", 4)]
      (by decide) (by decide)).2.2.1⟩

/-- C7 as stated fails: on the request `/badge?color=red`, which has no `page_id`, `getBadge`
returns before it reaches the store: it makes no `updateCounter` call and writes nothing. -/
theorem getBadge_without_page_id_skips_store :
    sampleDeps.qryParam "page_id" noPageRequest "" = "" ∧
    (getBadge sampleDeps noPageRequest initCache).calls = [] ∧
    (getBadge sampleDeps noPageRequest initCache).calls.length ≠ 1 ∧
    (getBadge sampleDeps noPageRequest initCache).reply = .nothing := by
  decide

/-- C7, amended: `getBadge` performs exactly one store operation, an `updateCounter` call,
on every request whose `page_id` is non-empty, and none on a request whose `page_id` is
empty, which it leaves without touching the store. -/
theorem getBadge_store_calls {σ : Type} (d : Deps σ) (r : Request) (s : σ) :
    (getBadge d r s).calls.length = (if d.qryParam "page_id" r "" = "" then 0 else 1) ∧
    (getBadge d r s).calls =
      (if d.qryParam "page_id" r "" = "" then []
       else [.updateCounter (decide ((d.qryParam "cache" r "").length > 0))
          (d.getHash (d.qryParam "page_id" r ""))]) ∧
    (getBadge d r s).store =
      (if d.qryParam "page_id" r "" = "" then s
       else (d.updateCounter (decide ((d.qryParam "cache" r "").length > 0))
          (d.getHash (d.qryParam "page_id" r "")) s).2) := by
  refine ⟨?_, getBadge_calls d r s, getBadge_store d r s⟩
  rw [getBadge_calls]
  split <;> rfl

theorem exec_store_eq_replay {σ : Type} (d : Deps σ) (b : Body) :
    ∀ s : σ, (b.exec d s).store = replayCalls d (b.exec d s).calls s := by
  induction b with
  | reply out => intro s; rfl
  | updateCounter useCache hash next ih =>
    intro s
    simp only [Body.exec, replayCalls, List.foldl_cons, StoreCall.applyTo]
    exact ih _ _
  | cacheLen next ih =>
    intro s
    simp only [Body.exec, replayCalls, List.foldl_cons, StoreCall.applyTo]
    exact ih _ _

theorem serve_eq_exec {σ : Type} (h : Handler) (d : Deps σ) (r : Request) (s : σ) :
    ∃ b : Body, h.serve d r s = b.exec d s := by
  cases h
  · exact ⟨_, rfl⟩
  · exact ⟨_, rfl⟩
  · exact ⟨_, rfl⟩
  · exact ⟨_, rfl⟩

/-- C8: each of the handlers `getBadge`, `getStatus`, `getPing` and `getWebsite` makes at
most one call on the store per request, and the calls recorded while the handler runs
account for the store it leaves.  `getBadge` leaves the store of its one `updateCounter`
call, or the store it found when `page_id` is empty; `getStatus` makes the one `cache.Len`
call, reports its result and leaves the store as it was; `getPing` and `getWebsite` make no
call and leave the store as it was. -/
theorem at_most_one_store_call {σ : Type} (h : Handler) (d : Deps σ) (r : Request) (s : σ) :
    (h.serve d r s).calls.length ≤ 1 ∧
    (h.serve d r s).store = replayCalls d (h.serve d r s).calls s ∧
    (getBadge d r s).calls.length ≤ 1 ∧
    (getBadge d r s).store =
      (if d.qryParam "page_id" r "" = "" then s
       else (d.updateCounter (decide ((d.qryParam "cache" r "").length > 0))
          (d.getHash (d.qryParam "page_id" r "")) s).2) ∧
    (getStatus d r s).calls = [.cacheLen] ∧
    (getStatus d r s).store = s ∧
    (getStatus d r s).reply = .status
      { CachedHashes := d.cacheLen s
        ProcessedRequests := d.processedBadges
        Uptime := d.uptime
        CodeRepository := "https://github.com/Nathan13888/VisitorBadgeReloaded" } ∧
    (getPing d r s).calls = [] ∧ (getPing d r s).store = s ∧
    (getPing d r s).reply = .text "PONG!!!" ∧
    (getWebsite d r s).calls = [] ∧ (getWebsite d r s).store = s ∧
    (getWebsite d r s).reply
      = .redirect "https://github.com/Nathan13888/VisitorBadgeReloaded" 307 := by
  have hb : (getBadge d r s).calls.length ≤ 1 := by
    rw [getBadge_calls]
    split <;> simp
  have hreplay : (h.serve d r s).store = replayCalls d (h.serve d r s).calls s := by
    obtain ⟨b, hbody⟩ := serve_eq_exec h d r s
    rw [hbody]
    exact exec_store_eq_replay d b s
  refine ⟨?_, hreplay, hb, getBadge_store d r s, rfl, rfl, rfl, rfl, rfl, rfl, rfl, rfl, rfl⟩
  cases h with
  | getWebsite => simp [Handler.serve, getWebsite, getWebsiteBody, Body.exec]
  | getPing => simp [Handler.serve, getPing, getPingBody, Body.exec]
  | getStatus => simp [Handler.serve, getStatus, getStatusBody, Body.exec]
  | getBadge => exact hb

/-- C9: the one call `getBadge` makes on the store is `updateCounter(flag, key)` with `key`
the hash of the raw `page_id` value and `flag` true exactly when the `cache` parameter is
non-empty, and the store it leaves is the store of that call.  Two requests with the same
non-empty `page_id` and the same emptiness of `cache` make the same call, and leave the same
store, whatever their other parameters are. -/
theorem store_input_from_page_id_and_cache {σ : Type} (d : Deps σ) (r₁ r₂ : Request) (s : σ)
    (hpage : d.qryParam "page_id" r₁ "" = d.qryParam "page_id" r₂ "")
    (hne : d.qryParam "page_id" r₁ "" ≠ "")
    (hcache : d.qryParam "cache" r₁ "" = "" ↔ d.qryParam "cache" r₂ "" = "") :
    (getBadge d r₁ s).calls =
      [.updateCounter (decide (d.qryParam "cache" r₁ "" ≠ ""))
        (d.getHash (d.qryParam "page_id" r₁ ""))] ∧
    (getBadge d r₁ s).store =
      (d.updateCounter (decide (d.qryParam "cache" r₁ "" ≠ ""))
        (d.getHash (d.qryParam "page_id" r₁ "")) s).2 ∧
    (getBadge d r₂ s).store =
      (d.updateCounter (decide (d.qryParam "cache" r₁ "" ≠ ""))
        (d.getHash (d.qryParam "page_id" r₁ "")) s).2 ∧
    (getBadge d r₁ s).store = replayCalls d (getBadge d r₁ s).calls s ∧
    (getBadge d r₁ s).calls = (getBadge d r₂ s).calls ∧
    (getBadge d r₁ s).store = (getBadge d r₂ s).store := by
  have hne₂ : d.qryParam "page_id" r₂ "" ≠ "" := hpage ▸ hne
  have hflag : ∀ r : Request, decide ((d.qryParam "cache" r "").length > 0)
      = decide (d.qryParam "cache" r "" ≠ "") := fun r =>
    decide_eq_decide.mpr (length_pos_iff_ne_empty _)
  have hsame : decide (d.qryParam "cache" r₁ "" ≠ "")
      = decide (d.qryParam "cache" r₂ "" ≠ "") :=
    decide_eq_decide.mpr (not_congr hcache)
  refine ⟨?_, ?_, ?_, exec_store_eq_replay d _ s, ?_, ?_⟩
  · rw [getBadge_calls, if_neg hne, hflag]
  · rw [getBadge_store, if_neg hne, hflag]
  · rw [getBadge_store, if_neg hne₂, hflag, ← hsame, ← hpage]
  · rw [getBadge_calls, getBadge_calls, if_neg hne, if_neg hne₂, hflag, hflag, hsame, hpage]
  · rw [getBadge_store, getBadge_store, if_neg hne, if_neg hne₂, hflag, hflag, hsame, hpage]

/-- C9 at two requests for the page `p` with a non-empty `cache` that differ in their other
parameters: both make the call `updateCounter(true, "p")` and leave the store as it was. -/
theorem store_input_from_page_id_and_cache_witness :
    sampleDeps.qryParam "page_id" cachedRequest ""
      = sampleDeps.qryParam "page_id" styledRequest "" ∧
    sampleDeps.qryParam "page_id" cachedRequest "" ≠ "" ∧
    (sampleDeps.qryParam "cache" cachedRequest "" = "" ↔
      sampleDeps.qryParam "cache" styledRequest "" = "") ∧
    cachedRequest ≠ styledRequest ∧
    (getBadge sampleDeps cachedRequest [("p", 4)]).calls = [.updateCounter true "p"] ∧
    (getBadge sampleDeps cachedRequest [("p", 4)]).calls
      = (getBadge sampleDeps styledRequest [("p", 4)]).calls ∧
    (getBadge sampleDeps styledRequest [("p", 4)]).store = [("p", 4)] :=
  ⟨by decide, by decide, by decide, by decide,
    (store_input_from_page_id_and_cache sampleDeps cachedRequest styledRequest [("p", 4)]
      (by decide) (by decide) (by decide)).1.trans (by decide),
    (store_input_from_page_id_and_cache sampleDeps cachedRequest styledRequest [("p", 4)]
      (by decide) (by decide) (by decide)).2.2.2.2.1,
    (store_input_from_page_id_and_cache sampleDeps cachedRequest styledRequest [("p", 4)]
      (by decide) (by decide) (by decide)).2.2.1.trans (by decide)⟩

end VisitorBadge
